import Mathlib

/-!
Verification of the terracognita import orchestration pipeline
(`provider.Import`, src/unnamed/part_000, lines 20-142).

The pipeline is embedded shallowly: external collaborators (Provider,
Resource, Writer) are structures whose behavior is supplied as data, and
the side effects of a run (diagnostic log events, fetch calls,
serializations, sink syncs) are recorded in an explicit event trace.
Machine state that Go mutates in place (a Resource populated by `Read`)
is irrelevant to the control flow and is represented by the per-attempt
outcome of `Read`.
-/

namespace Terracognita

/-- Go error values as the pipeline builds them with the pkg errors
library: an arbitrary underlying error, the sentinel
`errcode.ErrProviderResourceNotSupported`, a message wrap (`errors.Wrapf`)
and `errors.WithStack`. -/
inductive GoErr : Type where
  | base (msg : String)
  | notSupported
  | wrap (msg : String) (e : GoErr)
  | withStack (e : GoErr)
  deriving DecidableEq

/-- The `errors.Cause` chain walk: strips `wrap` and `withStack` layers
down to the underlying error. -/
def GoErr.cause : GoErr → GoErr
  | .wrap _ e => e.cause
  | .withStack e => e.cause
  | .base m => .base m
  | .notSupported => .notSupported

/-- The `filter.Filter` fields that `Import` uses: the Include and
Exclude lists of resource type identifiers. -/
structure Filter : Type where
  Include : List String
  Exclude : List String
  deriving DecidableEq

/-- Modelled from the spec: `filter.Filter.IsExcluded` is not under
src/; the spec describes it as the membership test of the Exclude list
(`IsExcluded(type) -> bool`). -/
def Filter.IsExcluded (f : Filter) (t : String) : Bool :=
  f.Exclude.contains t

/-- A resource handle as `Import` consumes it: identity (`ID`), the
outcome of its `ImportState` expansion (an error, or the list of
additional resources), the outcome of each `Read` attempt (indexed by
the retry attempt number; `none` is success), and the outcomes of its
`HCL` and `State` serializations. The behaviors are supplied as data
because the concrete resource implementations are external
collaborators. -/
inductive Resource : Type where
  | mk
      (ID : String)
      (importStateErr : Option GoErr)
      (importStateRes : List Resource)
      (readAttempt : Filter → Nat → Option GoErr)
      (hclErr : Option GoErr)
      (stateErr : Option GoErr)

/-- The resource identifier (`re.ID()`). -/
def Resource.ID : Resource → String
  | .mk i _ _ _ _ _ => i

/-- The `re.ImportState()` call: an error, or the additional resources
to import alongside the original. -/
def Resource.ImportState : Resource → Except GoErr (List Resource)
  | .mk _ (some e) _ _ _ _ => .error e
  | .mk _ none rs _ _ _ => .ok rs

/-- The `r.Read(f)` call, indexed by the retry attempt number. -/
def Resource.Read : Resource → Filter → Nat → Option GoErr
  | .mk _ _ _ ra _ _ => ra

/-- The outcome of the `r.HCL(hcl)` serialization. -/
def Resource.HCL : Resource → Option GoErr
  | .mk _ _ _ _ h _ => h

/-- The outcome of the `r.State(tfstate)` serialization. -/
def Resource.State : Resource → Option GoErr
  | .mk _ _ _ _ _ s => s

/-- A `writer.Writer` as `Import` uses it: only the outcome of its
`Sync()` matters; the writes themselves are recorded as trace events. -/
structure Sink : Type where
  SyncErr : Option GoErr
  deriving DecidableEq

/-- The `Provider` interface surface that `Import` uses.  `Ctx` is the
opaque `context.Context` type: `Import` never inspects it, it only
passes it to `Resources`. -/
structure Provider (Ctx : Type) : Type where
  HasResourceType : String → Bool
  ResourceTypes : List String
  Resources : Ctx → String → Filter → Except GoErr (List Resource)

/-- Observable actions of a run, in order of occurrence:
`excluded t` is the "excluded" diagnostic log for type `t`;
`fetch t` is a `p.Resources` call for type `t`;
`readFail t i c` is the diagnostic log of a unit whose read failed
every retry attempt (with the `errors.Cause` of the failure);
`readOK t i` marks a unit whose retried read succeeded;
`serializeHCL` / `serializeState` are the `r.HCL` / `r.State` calls;
`syncHCL` / `syncState` are the sink `Sync()` calls. -/
inductive Event : Type where
  | excluded (t : String)
  | fetch (t : String)
  | readFail (t i : String) (cause : GoErr)
  | readOK (t i : String)
  | serializeHCL (t i : String)
  | serializeState (t i : String)
  | syncHCL
  | syncState
  deriving DecidableEq

/-- Helper for the bounded retry: run attempts `start`, `start+1`, ...
until one succeeds, with the given number of attempts remaining; if the
final attempt fails its error is returned. -/
def retryFrom (op : Nat → Option GoErr) : Nat → Nat → Option GoErr
  | _, 0 => none
  | start, 1 => op start
  | start, n + 2 =>
    match op start with
    | none => none
    | some _ => retryFrom op (start + 1) (n + 1)

/-- Modelled from the spec: `util.RetryDefault` is not under src/; the
spec describes it as a bounded retry of the operation with a default
attempt count, returning the last failure when every attempt fails.
The attempt count is kept as a parameter. -/
def RetryDefault (attempts : Nat) (op : Nat → Option GoErr) : Option GoErr :=
  retryFrom op 0 attempts

/-- Lines 79-107 of the source: process one unit `r` (the original
resource or one of its expansions): retry `r.Read(f)`; if every attempt
fails, log the cause and skip the unit (non-fatal); if it succeeds,
serialize into the configuration sink when configured, then into the
state sink when configured, either serialization failure being fatal,
wrapped with the resource type (the source writes "satate" in the State
wrap message). -/
def processUnit (attempts : Nat) (f : Filter) (hcl tfstate : Option Sink)
    (t : String) (r : Resource) : List Event × Option GoErr :=
  match RetryDefault attempts (r.Read f) with
  | some e => ([.readFail t r.ID e.cause], none)
  | none =>
    match hcl with
    | some _ =>
      match r.HCL with
      | some e =>
        ([.readOK t r.ID, .serializeHCL t r.ID],
          some (.wrap ("error while calculating the Config of resource \"" ++ t ++ "\"") e))
      | none =>
        match tfstate with
        | some _ =>
          match r.State with
          | some e =>
            ([.readOK t r.ID, .serializeHCL t r.ID, .serializeState t r.ID],
              some (.wrap ("error while calculating the satate of resource \"" ++ t ++ "\"") e))
          | none =>
            ([.readOK t r.ID, .serializeHCL t r.ID, .serializeState t r.ID], none)
        | none => ([.readOK t r.ID, .serializeHCL t r.ID], none)
    | none =>
      match tfstate with
      | some _ =>
        match r.State with
        | some e =>
          ([.readOK t r.ID, .serializeState t r.ID],
            some (.wrap ("error while calculating the satate of resource \"" ++ t ++ "\"") e))
        | none => ([.readOK t r.ID, .serializeState t r.ID], none)
      | none => ([.readOK t r.ID], none)

/-- The inner loop over the processing set `append([]Resource{re}, res...)`
(line 79): units in order, stopping at the first fatal error. -/
def processUnits (attempts : Nat) (f : Filter) (hcl tfstate : Option Sink)
    (t : String) : List Resource → List Event × Option GoErr
  | [] => ([], none)
  | r :: rs =>
    match processUnit attempts f hcl tfstate t r with
    | (ev, some e) => (ev, some e)
    | (ev, none) =>
      match processUnits attempts f hcl tfstate t rs with
      | (ev2, r2) => (ev ++ ev2, r2)

/-- Lines 66-108: the loop over the fetched resources of one type: call
`re.ImportState()`; an expansion error is returned as-is and aborts the
run; otherwise process the unit list `re :: expansions`, stopping at the
first fatal error. -/
def processResources (attempts : Nat) (f : Filter) (hcl tfstate : Option Sink)
    (t : String) : List Resource → List Event × Option GoErr
  | [] => ([], none)
  | re :: res =>
    match re.ImportState with
    | .error e => ([], some e)
    | .ok expanded =>
      match processUnits attempts f hcl tfstate t (re :: expanded) with
      | (ev, some e) => (ev, some e)
      | (ev, none) =>
        match processResources attempts f hcl tfstate t res with
        | (ev2, r2) => (ev ++ ev2, r2)

/-- Lines 50-113: the loop over the resolved type universe: an excluded
type logs one "excluded" event and is skipped before any fetch; otherwise
the type is fetched (`p.Resources(ctx, t, f)`), a fetch error is fatal
(wrapped `WithStack`), and the fetched resources are processed. -/
def processTypes {Ctx : Type} (attempts : Nat) (ctx : Ctx) (p : Provider Ctx)
    (hcl tfstate : Option Sink) (f : Filter) : List String → List Event × Option GoErr
  | [] => ([], none)
  | t :: ts =>
    if f.IsExcluded t then
      match processTypes attempts ctx p hcl tfstate f ts with
      | (ev, r) => (.excluded t :: ev, r)
    else
      match p.Resources ctx t f with
      | .error e => ([.fetch t], some (.withStack e))
      | .ok rs =>
        match processResources attempts f hcl tfstate t rs with
        | (ev, some e) => (.fetch t :: ev, some e)
        | (ev, none) =>
          match processTypes attempts ctx p hcl tfstate f ts with
          | (ev2, r2) => (.fetch t :: (ev ++ ev2), r2)

/-- The `Sync()` call of one optional sink, with the wrap message used
on failure. -/
def syncStep (s : Option Sink) (ev : Event) (msg : String) : List Event × Option GoErr :=
  match s with
  | none => ([], none)
  | some sk =>
    match sk.SyncErr with
    | some e => ([ev], some (.wrap msg e))
    | none => ([ev], none)

/-- Lines 115-139: sync the configuration sink (when configured) and
then the state sink (when configured); a failure is fatal and wrapped
with which sink failed. -/
def syncSinks (hcl tfstate : Option Sink) : List Event × Option GoErr :=
  match syncStep hcl .syncHCL "error while Sync Config" with
  | (ev, some e) => (ev, some e)
  | (ev, none) =>
    match syncStep tfstate .syncState "error while Sync State" with
    | (ev2, r) => (ev ++ ev2, r)

/-- Lines 27-45: the first entry of the list that the provider does not
support (the validation loops return on the first unsupported entry). -/
def firstUnsupported (has : String → Bool) : List String → Option String
  | [] => none
  | x :: xs => if has x then firstUnsupported has xs else some x

/-- Lines 24-36: the resolved type universe: `f.Include` when non-empty,
otherwise the provider's full supported-type list. -/
def typeUniverse {Ctx : Type} (p : Provider Ctx) (f : Filter) : List String :=
  if f.Include.isEmpty then p.ResourceTypes else f.Include

/-- Lines 20-142: the import pipeline. Validate Include, then Exclude,
against `p.HasResourceType` (a failure identifies the entry and the list
and nothing is fetched); run the type loop over the resolved universe;
on its success sync the configured sinks. The first component is the
event trace of the run; the second is the returned error (`none` is a
nil return). -/
def Import {Ctx : Type} (attempts : Nat) (ctx : Ctx) (p : Provider Ctx)
    (hcl tfstate : Option Sink) (f : Filter) : List Event × Option GoErr :=
  match firstUnsupported p.HasResourceType f.Include with
  | some i => ([], some (.wrap ("type " ++ i ++ " on Include filter") .notSupported))
  | none =>
    match firstUnsupported p.HasResourceType f.Exclude with
    | some e => ([], some (.wrap ("type " ++ e ++ " on Exclude filter") .notSupported))
    | none =>
      match processTypes attempts ctx p hcl tfstate f (typeUniverse p f) with
      | (ev, some e) => (ev, some e)
      | (ev, none) =>
        match syncSinks hcl tfstate with
        | (ev2, r) => (ev ++ ev2, r)

/-! ### Trace classification helpers -/

/-- Events emitted inside the per-resource processing (read logs and
serializations), as opposed to type-level and sync events. -/
def Event.isInner : Event → Bool
  | .readFail _ _ _ => true
  | .readOK _ _ => true
  | .serializeHCL _ _ => true
  | .serializeState _ _ => true
  | _ => false

/-- Sink finalize events. -/
def Event.isSync : Event → Bool
  | .syncHCL => true
  | .syncState => true
  | _ => false

/-- Serialization (sink write) events. -/
def Event.isSerialize : Event → Bool
  | .serializeHCL _ _ => true
  | .serializeState _ _ => true
  | _ => false

/-- The per-type head markers of a trace: the type of each "excluded"
log and of each fetch call, in order. One marker is emitted per
iteration of the type loop that runs. -/
def typeMarkers : List Event → List String
  | [] => []
  | .excluded t :: es => t :: typeMarkers es
  | .fetch t :: es => t :: typeMarkers es
  | _ :: es => typeMarkers es

/-- The per-unit markers of a trace: the resource id of each read
outcome (success or final failure), in order. Each processed unit
emits exactly one. -/
def unitMarkers : List Event → List String
  | [] => []
  | .readFail _ i _ :: es => i :: unitMarkers es
  | .readOK _ i :: es => i :: unitMarkers es
  | _ :: es => unitMarkers es

theorem typeMarkers_append (l1 l2 : List Event) :
    typeMarkers (l1 ++ l2) = typeMarkers l1 ++ typeMarkers l2 := by
  induction l1 with
  | nil => rfl
  | cons e es ih => cases e <;> simp [typeMarkers, ih]

theorem unitMarkers_append (l1 l2 : List Event) :
    unitMarkers (l1 ++ l2) = unitMarkers l1 ++ unitMarkers l2 := by
  induction l1 with
  | nil => rfl
  | cons e es ih => cases e <;> simp [unitMarkers, ih]

theorem typeMarkers_eq_nil_of_inner {l : List Event}
    (h : ∀ ev ∈ l, ev.isInner = true) : typeMarkers l = [] := by
  induction l with
  | nil => rfl
  | cons e es ih =>
    have he := h e (by simp)
    have hes : ∀ ev ∈ es, ev.isInner = true := fun ev hev => h ev (by simp [hev])
    cases e <;> simp [Event.isInner] at he <;> simp [typeMarkers, ih hes]

/-! ### Validation helper lemmas -/

theorem firstUnsupported_some {has : String → Bool} {l : List String} {x : String}
    (h : firstUnsupported has l = some x) : x ∈ l ∧ has x = false := by
  induction l with
  | nil => simp [firstUnsupported] at h
  | cons a as ih =>
    by_cases ha : has a = true
    · simp [firstUnsupported, ha] at h
      rcases ih h with ⟨hm, hf⟩
      exact ⟨by simp [hm], hf⟩
    · simp [firstUnsupported, ha] at h
      subst h
      exact ⟨by simp, by simpa using ha⟩

theorem firstUnsupported_none {has : String → Bool} {l : List String}
    (h : firstUnsupported has l = none) : ∀ x ∈ l, has x = true := by
  induction l with
  | nil => simp
  | cons a as ih =>
    by_cases ha : has a = true
    · simp [firstUnsupported, ha] at h
      intro x hx
      rcases List.mem_cons.mp hx with rfl | hx
      · exact ha
      · exact ih h x hx
    · simp [firstUnsupported, ha] at h

theorem firstUnsupported_none_of_all {has : String → Bool} {l : List String}
    (h : ∀ x ∈ l, has x = true) : firstUnsupported has l = none := by
  induction l with
  | nil => rfl
  | cons a as ih =>
    have ha := h a (by simp)
    simp [firstUnsupported, ha]
    exact ih fun x hx => h x (by simp [hx])

/-! ### Structure of the inner (per-resource) trace -/

theorem isSync_eq_false_of_isInner : ∀ ev : Event, ev.isInner = true → ev.isSync = false := by
  intro ev
  cases ev <;> simp [Event.isInner, Event.isSync]

theorem processUnit_all_inner (attempts : Nat) (f : Filter) (hcl tfstate : Option Sink)
    (t : String) (r : Resource) :
    ((processUnit attempts f hcl tfstate t r).1).all Event.isInner = true := by
  unfold processUnit
  repeat' split
  all_goals simp [Event.isInner]

theorem processUnits_all_inner (attempts : Nat) (f : Filter) (hcl tfstate : Option Sink)
    (t : String) (us : List Resource) :
    ((processUnits attempts f hcl tfstate t us).1).all Event.isInner = true := by
  induction us with
  | nil => simp [processUnits]
  | cons r rs ih =>
    rcases h : processUnit attempts f hcl tfstate t r with ⟨ev, oe⟩
    have hev : ev.all Event.isInner = true := by
      have h2 := processUnit_all_inner attempts f hcl tfstate t r
      rw [h] at h2
      exact h2
    rcases hrs : processUnits attempts f hcl tfstate t rs with ⟨ev2, r2⟩
    have hev2 : ev2.all Event.isInner = true := by
      have h3 := ih
      rw [hrs] at h3
      exact h3
    cases oe with
    | some e => simpa [processUnits, h] using hev
    | none => simp [processUnits, h, hrs, List.all_append, hev, hev2]

theorem processResources_all_inner (attempts : Nat) (f : Filter) (hcl tfstate : Option Sink)
    (t : String) (rs : List Resource) :
    ((processResources attempts f hcl tfstate t rs).1).all Event.isInner = true := by
  induction rs with
  | nil => simp [processResources]
  | cons re res ih =>
    cases hexp : re.ImportState with
    | error e => simp [processResources, hexp]
    | ok expanded =>
      rcases h : processUnits attempts f hcl tfstate t (re :: expanded) with ⟨ev, oe⟩
      have hev : ev.all Event.isInner = true := by
        have h2 := processUnits_all_inner attempts f hcl tfstate t (re :: expanded)
        rw [h] at h2
        exact h2
      rcases hres : processResources attempts f hcl tfstate t res with ⟨ev2, r2⟩
      have hev2 : ev2.all Event.isInner = true := by
        have h3 := ih
        rw [hres] at h3
        exact h3
      cases oe with
      | some e => simpa [processResources, hexp, h] using hev
      | none => simp [processResources, hexp, h, hres, List.all_append, hev, hev2]

theorem mem_of_all_inner {l : List Event} (h : l.all Event.isInner = true) :
    ∀ ev ∈ l, ev.isInner = true := by
  simpa [List.all_eq_true] using h

theorem count_excluded_eq_zero_of_inner {l : List Event}
    (h : l.all Event.isInner = true) (t : String) :
    l.count (Event.excluded t) = 0 :=
  List.count_eq_zero.mpr fun hmem => by
    have h2 := mem_of_all_inner h _ hmem
    simp [Event.isInner] at h2

theorem count_fetch_eq_zero_of_inner {l : List Event}
    (h : l.all Event.isInner = true) (t : String) :
    l.count (Event.fetch t) = 0 :=
  List.count_eq_zero.mpr fun hmem => by
    have h2 := mem_of_all_inner h _ hmem
    simp [Event.isInner] at h2

/-! ### Structure of the type-loop trace -/

theorem processTypes_no_sync {Ctx : Type} (attempts : Nat) (ctx : Ctx) (p : Provider Ctx)
    (hcl tfstate : Option Sink) (f : Filter) (ts : List String) :
    ∀ ev ∈ (processTypes attempts ctx p hcl tfstate f ts).1, ev.isSync = false := by
  induction ts with
  | nil => simp [processTypes]
  | cons t ts ih =>
    rcases hts : processTypes attempts ctx p hcl tfstate f ts with ⟨evr, rr⟩
    have ihm : ∀ ev ∈ evr, ev.isSync = false := by
      rw [hts] at ih
      exact ih
    by_cases hex : f.IsExcluded t
    · have heq : processTypes attempts ctx p hcl tfstate f (t :: ts) = (.excluded t :: evr, rr) := by
        simp [processTypes, hex, hts]
      rw [heq]
      intro ev hev
      rcases List.mem_cons.mp hev with rfl | hev
      · rfl
      · exact ihm ev hev
    · cases hfetch : p.Resources ctx t f with
      | error e =>
        have heq : processTypes attempts ctx p hcl tfstate f (t :: ts) =
            ([.fetch t], some (.withStack e)) := by
          simp [processTypes, hex, hfetch]
        rw [heq]
        intro ev hev
        rcases List.mem_singleton.mp hev with rfl
        rfl
      | ok rs =>
        rcases hpr : processResources attempts f hcl tfstate t rs with ⟨ev, oe⟩
        have hprm : ∀ e2 ∈ ev, e2.isSync = false := by
          intro e2 he2
          refine isSync_eq_false_of_isInner e2 (mem_of_all_inner ?_ _ he2)
          have h2 := processResources_all_inner attempts f hcl tfstate t rs
          rw [hpr] at h2
          exact h2
        cases oe with
        | some e =>
          have heq : processTypes attempts ctx p hcl tfstate f (t :: ts) =
              (.fetch t :: ev, some e) := by
            simp [processTypes, hex, hfetch, hpr]
          rw [heq]
          intro e2 he2
          rcases List.mem_cons.mp he2 with rfl | he2
          · rfl
          · exact hprm e2 he2
        | none =>
          have heq : processTypes attempts ctx p hcl tfstate f (t :: ts) =
              (.fetch t :: (ev ++ evr), rr) := by
            simp [processTypes, hex, hfetch, hpr, hts]
          rw [heq]
          intro e2 he2
          rcases List.mem_cons.mp he2 with rfl | he2
          · rfl
          · rcases List.mem_append.mp he2 with h3 | h3
            · exact hprm e2 h3
            · exact ihm e2 h3

theorem typeMarkers_processTypes {Ctx : Type} (attempts : Nat) (ctx : Ctx) (p : Provider Ctx)
    (hcl tfstate : Option Sink) (f : Filter) (ts : List String)
    (h : (processTypes attempts ctx p hcl tfstate f ts).2 = none) :
    typeMarkers (processTypes attempts ctx p hcl tfstate f ts).1 = ts := by
  induction ts with
  | nil => simp [processTypes, typeMarkers]
  | cons t ts ih =>
    rcases hts : processTypes attempts ctx p hcl tfstate f ts with ⟨evr, rr⟩
    rw [hts] at ih
    by_cases hex : f.IsExcluded t
    · have heq : processTypes attempts ctx p hcl tfstate f (t :: ts) = (.excluded t :: evr, rr) := by
        simp [processTypes, hex, hts]
      rw [heq] at h ⊢
      simp only at h
      simp [typeMarkers, ih h]
    · cases hfetch : p.Resources ctx t f with
      | error e =>
        have heq : processTypes attempts ctx p hcl tfstate f (t :: ts) =
            ([.fetch t], some (.withStack e)) := by
          simp [processTypes, hex, hfetch]
        rw [heq] at h
        simp at h
      | ok rs =>
        rcases hpr : processResources attempts f hcl tfstate t rs with ⟨ev, oe⟩
        cases oe with
        | some e =>
          have heq : processTypes attempts ctx p hcl tfstate f (t :: ts) =
              (.fetch t :: ev, some e) := by
            simp [processTypes, hex, hfetch, hpr]
          rw [heq] at h
          simp at h
        | none =>
          have heq : processTypes attempts ctx p hcl tfstate f (t :: ts) =
              (.fetch t :: (ev ++ evr), rr) := by
            simp [processTypes, hex, hfetch, hpr, hts]
          rw [heq] at h ⊢
          simp only at h
          have hevnil : typeMarkers ev = [] := by
            refine typeMarkers_eq_nil_of_inner (mem_of_all_inner ?_)
            have h2 := processResources_all_inner attempts f hcl tfstate t rs
            rw [hpr] at h2
            exact h2
          simp [typeMarkers, typeMarkers_append, hevnil, ih h]

theorem processTypes_count_of_excluded {Ctx : Type} (attempts : Nat) (ctx : Ctx)
    (p : Provider Ctx) (hcl tfstate : Option Sink) (f : Filter) (t : String)
    (hex : f.IsExcluded t = true) (ts : List String)
    (h : (processTypes attempts ctx p hcl tfstate f ts).2 = none) :
    ((processTypes attempts ctx p hcl tfstate f ts).1).count (Event.excluded t) = ts.count t ∧
    ((processTypes attempts ctx p hcl tfstate f ts).1).count (Event.fetch t) = 0 := by
  induction ts with
  | nil => simp [processTypes]
  | cons u ts ih =>
    rcases hts : processTypes attempts ctx p hcl tfstate f ts with ⟨evr, rr⟩
    rw [hts] at ih
    by_cases hu : f.IsExcluded u
    · have heq : processTypes attempts ctx p hcl tfstate f (u :: ts) = (.excluded u :: evr, rr) := by
        simp [processTypes, hu, hts]
      rw [heq] at h ⊢
      simp only at h
      rcases ih h with ⟨ih1, ih2⟩
      constructor
      · by_cases hut : u = t <;> simp [List.count_cons, ih1, hut]
      · simp [List.count_cons, ih2]
    · have hut : u ≠ t := by
        intro hcontra
        rw [hcontra] at hu
        exact hu hex
      cases hfetch : p.Resources ctx u f with
      | error e =>
        have heq : processTypes attempts ctx p hcl tfstate f (u :: ts) =
            ([.fetch u], some (.withStack e)) := by
          simp [processTypes, hu, hfetch]
        rw [heq] at h
        simp at h
      | ok rs =>
        rcases hpr : processResources attempts f hcl tfstate u rs with ⟨ev, oe⟩
        cases oe with
        | some e =>
          have heq : processTypes attempts ctx p hcl tfstate f (u :: ts) =
              (.fetch u :: ev, some e) := by
            simp [processTypes, hu, hfetch, hpr]
          rw [heq] at h
          simp at h
        | none =>
          have heq : processTypes attempts ctx p hcl tfstate f (u :: ts) =
              (.fetch u :: (ev ++ evr), rr) := by
            simp [processTypes, hu, hfetch, hpr, hts]
          rw [heq] at h ⊢
          simp only at h
          rcases ih h with ⟨ih1, ih2⟩
          have hall : ev.all Event.isInner = true := by
            have h2 := processResources_all_inner attempts f hcl tfstate u rs
            rw [hpr] at h2
            exact h2
          constructor
          · simp [List.count_cons, List.count_append, ih1,
              count_excluded_eq_zero_of_inner hall, hut]
          · simp [List.count_cons, List.count_append, ih2,
              count_fetch_eq_zero_of_inner hall, hut]

theorem fetch_mem_processTypes {Ctx : Type} (attempts : Nat) (ctx : Ctx) (p : Provider Ctx)
    (hcl tfstate : Option Sink) (f : Filter) (ts : List String) (t : String)
    (h : (processTypes attempts ctx p hcl tfstate f ts).2 = none)
    (hmem : t ∈ ts) (hex : f.IsExcluded t = false) :
    Event.fetch t ∈ (processTypes attempts ctx p hcl tfstate f ts).1 := by
  induction ts with
  | nil => simp at hmem
  | cons u ts ih =>
    rcases hts : processTypes attempts ctx p hcl tfstate f ts with ⟨evr, rr⟩
    rw [hts] at ih
    by_cases hu : f.IsExcluded u
    · have heq : processTypes attempts ctx p hcl tfstate f (u :: ts) = (.excluded u :: evr, rr) := by
        simp [processTypes, hu, hts]
      rw [heq] at h ⊢
      simp only at h
      rcases List.mem_cons.mp hmem with rfl | hmem2
      · rw [hex] at hu
        simp at hu
      · exact List.mem_cons_of_mem _ (ih h hmem2)
    · cases hfetch : p.Resources ctx u f with
      | error e =>
        have heq : processTypes attempts ctx p hcl tfstate f (u :: ts) =
            ([.fetch u], some (.withStack e)) := by
          simp [processTypes, hu, hfetch]
        rw [heq] at h
        simp at h
      | ok rs =>
        rcases hpr : processResources attempts f hcl tfstate u rs with ⟨ev, oe⟩
        cases oe with
        | some e =>
          have heq : processTypes attempts ctx p hcl tfstate f (u :: ts) =
              (.fetch u :: ev, some e) := by
            simp [processTypes, hu, hfetch, hpr]
          rw [heq] at h
          simp at h
        | none =>
          have heq : processTypes attempts ctx p hcl tfstate f (u :: ts) =
              (.fetch u :: (ev ++ evr), rr) := by
            simp [processTypes, hu, hfetch, hpr, hts]
          rw [heq] at h ⊢
          simp only at h
          rcases List.mem_cons.mp hmem with rfl | hmem2
          · exact List.mem_cons_self _ _
          · exact List.mem_cons_of_mem _ (List.mem_append_right _ (ih h hmem2))

/-! ### Behavior with no configured sinks -/

theorem processUnit_no_sinks (attempts : Nat) (f : Filter) (t : String) (r : Resource) :
    (processUnit attempts f none none t r).2 = none ∧
    ∀ ev ∈ (processUnit attempts f none none t r).1, ev.isSerialize = false := by
  unfold processUnit
  cases RetryDefault attempts (r.Read f) <;>
    simp [Event.isSerialize]

theorem processUnits_no_sinks (attempts : Nat) (f : Filter) (t : String) (us : List Resource) :
    (processUnits attempts f none none t us).2 = none ∧
    ∀ ev ∈ (processUnits attempts f none none t us).1, ev.isSerialize = false := by
  induction us with
  | nil => simp [processUnits]
  | cons r rs ih =>
    rcases h : processUnit attempts f none none t r with ⟨ev, oe⟩
    have hu := processUnit_no_sinks attempts f t r
    rw [h] at hu
    rcases hu with ⟨hres, hserial⟩
    simp only at hres
    subst hres
    rcases hrs : processUnits attempts f none none t rs with ⟨ev2, r2⟩
    rw [hrs] at ih
    rcases ih with ⟨ih1, ih2⟩
    simp only at ih1
    subst ih1
    have heq : processUnits attempts f none none t (r :: rs) = (ev ++ ev2, none) := by
      simp [processUnits, h, hrs]
    rw [heq]
    refine ⟨rfl, ?_⟩
    intro e2 he2
    rcases List.mem_append.mp he2 with h3 | h3
    · exact hserial e2 h3
    · exact ih2 e2 h3

theorem processResources_no_sinks_serialize (attempts : Nat) (f : Filter) (t : String)
    (rs : List Resource) :
    ∀ ev ∈ (processResources attempts f none none t rs).1, ev.isSerialize = false := by
  induction rs with
  | nil => simp [processResources]
  | cons re res ih =>
    cases hexp : re.ImportState with
    | error e => simp [processResources, hexp]
    | ok expanded =>
      rcases h : processUnits attempts f none none t (re :: expanded) with ⟨ev, oe⟩
      have hu := processUnits_no_sinks attempts f t (re :: expanded)
      rw [h] at hu
      rcases hu with ⟨hres, hserial⟩
      simp only at hres
      subst hres
      rcases hres2 : processResources attempts f none none t res with ⟨ev2, r2⟩
      rw [hres2] at ih
      have heq : processResources attempts f none none t (re :: res) = (ev ++ ev2, r2) := by
        simp [processResources, hexp, h, hres2]
      rw [heq]
      intro e2 he2
      rcases List.mem_append.mp he2 with h3 | h3
      · exact hserial e2 h3
      · exact ih e2 h3

theorem processTypes_no_sinks_serialize {Ctx : Type} (attempts : Nat) (ctx : Ctx)
    (p : Provider Ctx) (f : Filter) (ts : List String) :
    ∀ ev ∈ (processTypes attempts ctx p none none f ts).1, ev.isSerialize = false := by
  induction ts with
  | nil => simp [processTypes]
  | cons t ts ih =>
    rcases hts : processTypes attempts ctx p none none f ts with ⟨evr, rr⟩
    rw [hts] at ih
    by_cases hex : f.IsExcluded t
    · have heq : processTypes attempts ctx p none none f (t :: ts) = (.excluded t :: evr, rr) := by
        simp [processTypes, hex, hts]
      rw [heq]
      intro ev hev
      rcases List.mem_cons.mp hev with rfl | hev
      · rfl
      · exact ih ev hev
    · cases hfetch : p.Resources ctx t f with
      | error e =>
        have heq : processTypes attempts ctx p none none f (t :: ts) =
            ([.fetch t], some (.withStack e)) := by
          simp [processTypes, hex, hfetch]
        rw [heq]
        intro ev hev
        rcases List.mem_singleton.mp hev with rfl
        rfl
      | ok rs =>
        rcases hpr : processResources attempts f none none t rs with ⟨ev, oe⟩
        have hprm : ∀ e2 ∈ ev, e2.isSerialize = false := by
          have h2 := processResources_no_sinks_serialize attempts f t rs
          rw [hpr] at h2
          exact h2
        cases oe with
        | some e =>
          have heq : processTypes attempts ctx p none none f (t :: ts) =
              (.fetch t :: ev, some e) := by
            simp [processTypes, hex, hfetch, hpr]
          rw [heq]
          intro e2 he2
          rcases List.mem_cons.mp he2 with rfl | he2
          · rfl
          · exact hprm e2 he2
        | none =>
          have heq : processTypes attempts ctx p none none f (t :: ts) =
              (.fetch t :: (ev ++ evr), rr) := by
            simp [processTypes, hex, hfetch, hpr, hts]
          rw [heq]
          intro e2 he2
          rcases List.mem_cons.mp he2 with rfl | he2
          · rfl
          · rcases List.mem_append.mp he2 with h3 | h3
            · exact hprm e2 h3
            · exact ih e2 h3

/-! ### Sync and Import unfolding lemmas -/

theorem syncSinks_all_sync (hcl tfstate : Option Sink) :
    ∀ ev ∈ (syncSinks hcl tfstate).1, ev.isSync = true := by
  cases hcl with
  | none =>
    cases tfstate with
    | none => simp [syncSinks, syncStep]
    | some sk2 =>
      cases h2 : sk2.SyncErr <;> simp [syncSinks, syncStep, h2, Event.isSync]
  | some sk =>
    cases h : sk.SyncErr with
    | some e => simp [syncSinks, syncStep, h, Event.isSync]
    | none =>
      cases tfstate with
      | none => simp [syncSinks, syncStep, h, Event.isSync]
      | some sk2 =>
        cases h2 : sk2.SyncErr <;> simp [syncSinks, syncStep, h, h2, Event.isSync]

theorem typeMarkers_eq_nil_of_sync {l : List Event} (h : ∀ ev ∈ l, ev.isSync = true) :
    typeMarkers l = [] := by
  induction l with
  | nil => rfl
  | cons e es ih =>
    have he := h e (by simp)
    have hes := fun ev hev => h ev (List.mem_cons_of_mem _ hev)
    cases e <;> simp [Event.isSync] at he <;> simp [typeMarkers, ih hes]

theorem isSerialize_eq_false_of_sync : ∀ ev : Event, ev.isSync = true → ev.isSerialize = false := by
  intro ev
  cases ev <;> simp [Event.isSync, Event.isSerialize]

theorem typeMarkers_syncSinks (hcl tfstate : Option Sink) :
    typeMarkers (syncSinks hcl tfstate).1 = [] :=
  typeMarkers_eq_nil_of_sync (syncSinks_all_sync hcl tfstate)

theorem count_syncSinks_excluded (hcl tfstate : Option Sink) (t : String) :
    ((syncSinks hcl tfstate).1).count (Event.excluded t) = 0 ∧
    ((syncSinks hcl tfstate).1).count (Event.fetch t) = 0 := by
  constructor <;> refine List.count_eq_zero.mpr fun hmem => ?_ <;>
    · have h2 := syncSinks_all_sync hcl tfstate _ hmem
      simp [Event.isSync] at h2

theorem syncSinks_no_serialize (hcl tfstate : Option Sink) :
    ∀ ev ∈ (syncSinks hcl tfstate).1, ev.isSerialize = false :=
  fun ev hev => isSerialize_eq_false_of_sync ev (syncSinks_all_sync hcl tfstate ev hev)

theorem Import_valid_fatal {Ctx : Type} (attempts : Nat) (ctx : Ctx) (p : Provider Ctx)
    (hcl tfstate : Option Sink) (f : Filter) (ev : List Event) (e : GoErr)
    (h1 : firstUnsupported p.HasResourceType f.Include = none)
    (h2 : firstUnsupported p.HasResourceType f.Exclude = none)
    (hpt : processTypes attempts ctx p hcl tfstate f (typeUniverse p f) = (ev, some e)) :
    Import attempts ctx p hcl tfstate f = (ev, some e) := by
  simp [Import, h1, h2, hpt]

theorem Import_valid_ok {Ctx : Type} (attempts : Nat) (ctx : Ctx) (p : Provider Ctx)
    (hcl tfstate : Option Sink) (f : Filter) (ev : List Event)
    (h1 : firstUnsupported p.HasResourceType f.Include = none)
    (h2 : firstUnsupported p.HasResourceType f.Exclude = none)
    (hpt : processTypes attempts ctx p hcl tfstate f (typeUniverse p f) = (ev, none)) :
    Import attempts ctx p hcl tfstate f =
      (ev ++ (syncSinks hcl tfstate).1, (syncSinks hcl tfstate).2) := by
  rcases hs : syncSinks hcl tfstate with ⟨ev2, r2⟩
  simp [Import, h1, h2, hpt, hs]

theorem unitMarkers_processUnit (attempts : Nat) (f : Filter) (hcl tfstate : Option Sink)
    (t : String) (r : Resource) :
    unitMarkers (processUnit attempts f hcl tfstate t r).1 = [r.ID] := by
  unfold processUnit
  repeat' split
  all_goals simp [unitMarkers]

theorem unitMarkers_processUnits (attempts : Nat) (f : Filter) (hcl tfstate : Option Sink)
    (t : String) (us : List Resource)
    (h : (processUnits attempts f hcl tfstate t us).2 = none) :
    unitMarkers (processUnits attempts f hcl tfstate t us).1 = us.map Resource.ID := by
  induction us with
  | nil => simp [processUnits, unitMarkers]
  | cons r rs ih =>
    rcases hu : processUnit attempts f hcl tfstate t r with ⟨ev, oe⟩
    have hev : unitMarkers ev = [r.ID] := by
      have h2 := unitMarkers_processUnit attempts f hcl tfstate t r
      rw [hu] at h2
      exact h2
    rcases hrs : processUnits attempts f hcl tfstate t rs with ⟨ev2, r2⟩
    rw [hrs] at ih
    cases oe with
    | some e =>
      have heq : processUnits attempts f hcl tfstate t (r :: rs) = (ev, some e) := by
        simp [processUnits, hu]
      rw [heq] at h
      simp at h
    | none =>
      have heq : processUnits attempts f hcl tfstate t (r :: rs) = (ev ++ ev2, r2) := by
        simp [processUnits, hu, hrs]
      rw [heq] at h ⊢
      simp only at h
      simp [unitMarkers_append, hev, ih h]

/-! ### The claims -/

/-- C1: in any run whose Filter has an entry, in Include or in Exclude,
that the Provider does not support, Import returns a validation error
(the wrapped `ErrProviderResourceNotSupported`) that names the offending
type identifier and the list it came from; the trace is empty, so no
`Provider.Resources` fetch is ever performed and both validations
complete before any fetch. -/
theorem claim1_unsupported_entry_fails_before_fetch {Ctx : Type} (attempts : Nat) (ctx : Ctx)
    (p : Provider Ctx) (hcl tfstate : Option Sink) (f : Filter)
    (h : ¬ (∀ x ∈ f.Include, p.HasResourceType x = true) ∨
         ¬ (∀ x ∈ f.Exclude, p.HasResourceType x = true)) :
    (Import attempts ctx p hcl tfstate f).1 = [] ∧
    ∃ x, p.HasResourceType x = false ∧
      ((x ∈ f.Include ∧ (Import attempts ctx p hcl tfstate f).2 =
          some (.wrap ("type " ++ x ++ " on Include filter") .notSupported)) ∨
       (x ∈ f.Exclude ∧ (Import attempts ctx p hcl tfstate f).2 =
          some (.wrap ("type " ++ x ++ " on Exclude filter") .notSupported))) := by
  cases hI : firstUnsupported p.HasResourceType f.Include with
  | some i =>
    have hi := firstUnsupported_some hI
    have heq : Import attempts ctx p hcl tfstate f =
        ([], some (.wrap ("type " ++ i ++ " on Include filter") .notSupported)) := by
      simp [Import, hI]
    rw [heq]
    exact ⟨rfl, i, hi.2, Or.inl ⟨hi.1, rfl⟩⟩
  | none =>
    have hIall := firstUnsupported_none hI
    cases hE : firstUnsupported p.HasResourceType f.Exclude with
    | some x =>
      have hx := firstUnsupported_some hE
      have heq : Import attempts ctx p hcl tfstate f =
          ([], some (.wrap ("type " ++ x ++ " on Exclude filter") .notSupported)) := by
        simp [Import, hI, hE]
      rw [heq]
      exact ⟨rfl, x, hx.2, Or.inr ⟨hx.1, rfl⟩⟩
    | none =>
      have hEall := firstUnsupported_none hE
      rcases h with h | h
      · exact absurd hIall h
      · exact absurd hEall h

/-- A provider supporting only the type "good", fetching nothing. -/
def pW1 : Provider Unit :=
  { HasResourceType := fun t => t == "good"
  , ResourceTypes := ["good"]
  , Resources := fun _ _ _ => .ok [] }

/-- C1 witness: concrete run with an unsupported Include entry. -/
theorem claim1_witness :
    (¬ (∀ x ∈ (Filter.mk ["bad"] []).Include, pW1.HasResourceType x = true) ∨
     ¬ (∀ x ∈ (Filter.mk ["bad"] []).Exclude, pW1.HasResourceType x = true)) ∧
    ((Import 1 () pW1 none none (Filter.mk ["bad"] [])).1 = [] ∧
     ∃ x, pW1.HasResourceType x = false ∧
       ((x ∈ (Filter.mk ["bad"] []).Include ∧
           (Import 1 () pW1 none none (Filter.mk ["bad"] [])).2 =
             some (.wrap ("type " ++ x ++ " on Include filter") .notSupported)) ∨
        (x ∈ (Filter.mk ["bad"] []).Exclude ∧
           (Import 1 () pW1 none none (Filter.mk ["bad"] [])).2 =
             some (.wrap ("type " ++ x ++ " on Exclude filter") .notSupported)))) :=
  ⟨by decide,
   claim1_unsupported_entry_fails_before_fetch 1 () pW1 none none (Filter.mk ["bad"] [])
     (by decide)⟩

/-- C2: in a run that returns without error, the sequence of per-type
iterations of the loop (one marker per type: its "excluded" log or its
fetch) is exactly Include, in the caller's order, when Include is
non-empty, and the Provider's full supported-type list, in the
Provider's enumeration order, otherwise. -/
theorem claim2_type_universe {Ctx : Type} (attempts : Nat) (ctx : Ctx) (p : Provider Ctx)
    (hcl tfstate : Option Sink) (f : Filter)
    (h : (Import attempts ctx p hcl tfstate f).2 = none) :
    typeMarkers (Import attempts ctx p hcl tfstate f).1 =
      (if f.Include.isEmpty then p.ResourceTypes else f.Include) := by
  cases hI : firstUnsupported p.HasResourceType f.Include with
  | some i => simp [Import, hI] at h
  | none =>
    cases hE : firstUnsupported p.HasResourceType f.Exclude with
    | some x => simp [Import, hI, hE] at h
    | none =>
      rcases hpt : processTypes attempts ctx p hcl tfstate f (typeUniverse p f) with ⟨ev, oe⟩
      cases oe with
      | some e =>
        rw [Import_valid_fatal attempts ctx p hcl tfstate f ev e hI hE hpt] at h
        simp at h
      | none =>
        rw [Import_valid_ok attempts ctx p hcl tfstate f ev hI hE hpt]
        have h2 := typeMarkers_processTypes attempts ctx p hcl tfstate f (typeUniverse p f)
          (by rw [hpt])
        rw [hpt] at h2
        simp only at h2
        rw [typeMarkers_append, typeMarkers_syncSinks, h2, typeUniverse]
        simp

/-- A resource whose read always succeeds and which expands to nothing. -/
def rW2 : Resource := .mk "r2" none [] (fun _ _ => none) none none

/-- A provider with two supported types, each fetching one resource. -/
def pW2 : Provider Unit :=
  { HasResourceType := fun t => t == "a" || t == "b"
  , ResourceTypes := ["a", "b"]
  , Resources := fun _ _ _ => .ok [rW2] }

/-- C2 witness: a concrete successful run with an empty Include
processes the provider's full list in its order. -/
theorem claim2_witness :
    (Import 1 () pW2 none none (Filter.mk [] [])).2 = none ∧
    typeMarkers (Import 1 () pW2 none none (Filter.mk [] [])).1 =
      (if (Filter.mk [] []).Include.isEmpty then pW2.ResourceTypes
       else (Filter.mk [] []).Include) :=
  ⟨by decide, claim2_type_universe 1 () pW2 none none (Filter.mk [] []) (by decide)⟩

/-- A provider supporting only the type "a", fetching nothing. -/
def pC3 : Provider Unit :=
  { HasResourceType := fun t => t == "a"
  , ResourceTypes := ["a"]
  , Resources := fun _ _ _ => .ok [] }

/-- C3 counterexample: with Include = ["a", "a"] and Exclude = ["a"]
(all entries supported), the run completes, the excluded type "a" is in
the resolved universe, and the run emits two "excluded" diagnostic
events for it, not exactly one: the skip log is per occurrence in the
universe, not per type. -/
theorem claim3_counterexample :
    Filter.IsExcluded (Filter.mk ["a", "a"] ["a"]) "a" = true ∧
    "a" ∈ (if (Filter.mk ["a", "a"] ["a"]).Include.isEmpty then pC3.ResourceTypes
           else (Filter.mk ["a", "a"] ["a"]).Include) ∧
    (Import 1 () pC3 none none (Filter.mk ["a", "a"] ["a"])).2 = none ∧
    ((Import 1 () pC3 none none (Filter.mk ["a", "a"] ["a"])).1).count (Event.excluded "a") =
      2 := by
  decide

/-- C3 (amended): in a run that returns without error, a type that the
Filter marks as excluded is never passed to the fetch operation (zero
fetch events), and the run emits exactly one "excluded" diagnostic
event per occurrence of the type in the resolved universe — so exactly
one event whenever the universe lists the type once; this holds also
when the universe came from a non-empty Include. -/
theorem claim3_excluded_skipped_never_fetched {Ctx : Type} (attempts : Nat) (ctx : Ctx)
    (p : Provider Ctx) (hcl tfstate : Option Sink) (f : Filter) (t : String)
    (hex : f.IsExcluded t = true)
    (h : (Import attempts ctx p hcl tfstate f).2 = none) :
    ((Import attempts ctx p hcl tfstate f).1).count (Event.fetch t) = 0 ∧
    ((Import attempts ctx p hcl tfstate f).1).count (Event.excluded t) =
      (if f.Include.isEmpty then p.ResourceTypes else f.Include).count t := by
  cases hI : firstUnsupported p.HasResourceType f.Include with
  | some i => simp [Import, hI] at h
  | none =>
    cases hE : firstUnsupported p.HasResourceType f.Exclude with
    | some x => simp [Import, hI, hE] at h
    | none =>
      rcases hpt : processTypes attempts ctx p hcl tfstate f (typeUniverse p f) with ⟨ev, oe⟩
      cases oe with
      | some e =>
        rw [Import_valid_fatal attempts ctx p hcl tfstate f ev e hI hE hpt] at h
        simp at h
      | none =>
        rw [Import_valid_ok attempts ctx p hcl tfstate f ev hI hE hpt]
        have hc := processTypes_count_of_excluded attempts ctx p hcl tfstate f t hex
          (typeUniverse p f) (by rw [hpt])
        rw [hpt] at hc
        simp only at hc
        have hs := count_syncSinks_excluded hcl tfstate t
        constructor
        · simp [List.count_append, hc.2, hs.2]
        · rw [List.count_append, hc.1, hs.1, typeUniverse]
          simp

/-- C3 witness: with empty Include and Exclude = ["a"] over a provider
enumerating ["a", "b"], the excluded type gets zero fetches and exactly
one excluded event (its occurrence count in the universe). -/
theorem claim3_witness :
    Filter.IsExcluded (Filter.mk [] ["a"]) "a" = true ∧
    (Import 1 () pW2 none none (Filter.mk [] ["a"])).2 = none ∧
    (((Import 1 () pW2 none none (Filter.mk [] ["a"])).1).count (Event.fetch "a") = 0 ∧
     ((Import 1 () pW2 none none (Filter.mk [] ["a"])).1).count (Event.excluded "a") =
       (if (Filter.mk [] ["a"]).Include.isEmpty then pW2.ResourceTypes
        else (Filter.mk [] ["a"]).Include).count "a") :=
  ⟨by decide, by decide,
   claim3_excluded_skipped_never_fetched 1 () pW2 none none (Filter.mk [] ["a"]) "a"
     (by decide) (by decide)⟩

/-- C4: a unit whose read fails on every retry attempt contributes
exactly one diagnostic event, logging the cause of the failure; it is
serialized into neither sink (no serialization event for it exists);
and the loop continues with the next unit, whose events and result are
those of the remaining units, unchanged: the read error never becomes
the result. -/
theorem claim4_read_failure_nonfatal (attempts : Nat) (f : Filter) (hcl tfstate : Option Sink)
    (t : String) (r : Resource) (rs : List Resource) (e : GoErr)
    (h : RetryDefault attempts (r.Read f) = some e) :
    processUnits attempts f hcl tfstate t (r :: rs) =
      (Event.readFail t r.ID e.cause :: (processUnits attempts f hcl tfstate t rs).1,
       (processUnits attempts f hcl tfstate t rs).2) := by
  rcases hrs : processUnits attempts f hcl tfstate t rs with ⟨ev2, r2⟩
  simp [processUnits, processUnit, h, hrs]

/-- A resource whose read fails on every attempt. -/
def rW4 : Resource := .mk "rf" none [] (fun _ _ => some (.base "boom")) none none

/-- C4 witness: the always-failing unit on two retry attempts. -/
theorem claim4_witness :
    RetryDefault 2 (rW4.Read (Filter.mk [] [])) = some (.base "boom") ∧
    processUnits 2 (Filter.mk [] []) none none "a" [rW4] =
      (Event.readFail "a" rW4.ID (GoErr.base "boom").cause ::
         (processUnits 2 (Filter.mk [] []) none none "a" []).1,
       (processUnits 2 (Filter.mk [] []) none none "a" []).2) :=
  ⟨by decide,
   claim4_read_failure_nonfatal 2 (Filter.mk [] []) none none "a" rW4 [] (.base "boom")
     (by decide)⟩

/-- C5: for a unit whose retried read succeeded, a failing serialization
into the configuration sink (when configured) or into the state sink
(when configured, after the configuration step passed) makes the unit
processing return that error wrapped with the resource type, a fatal
outcome; and any fatal error of the type loop becomes the result of
Import unchanged, no further step runs and no sink finalize event
occurs anywhere in the run's trace. -/
theorem claim5_serialization_failure_fatal {Ctx : Type} (attempts : Nat) (ctx : Ctx)
    (p : Provider Ctx) (hcl tfstate : Option Sink) (f : Filter) (t : String) (r : Resource)
    (hread : RetryDefault attempts (r.Read f) = none) :
    (∀ sk e, hcl = some sk → r.HCL = some e →
        (processUnit attempts f hcl tfstate t r).2 =
          some (.wrap ("error while calculating the Config of resource \"" ++ t ++ "\"") e)) ∧
    (∀ sk e, tfstate = some sk → r.State = some e → (hcl = none ∨ r.HCL = none) →
        (processUnit attempts f hcl tfstate t r).2 =
          some (.wrap ("error while calculating the satate of resource \"" ++ t ++ "\"") e)) ∧
    (∀ ev er, firstUnsupported p.HasResourceType f.Include = none →
        firstUnsupported p.HasResourceType f.Exclude = none →
        processTypes attempts ctx p hcl tfstate f (typeUniverse p f) = (ev, some er) →
        Import attempts ctx p hcl tfstate f = (ev, some er) ∧
          Event.syncHCL ∉ ev ∧ Event.syncState ∉ ev) := by
  refine ⟨?_, ?_, ?_⟩
  · intro sk e hsk he
    subst hsk
    simp [processUnit, hread, he]
  · intro sk e hsk he hh
    subst hsk
    rcases hh with rfl | hh
    · simp [processUnit, hread, he]
    · cases hcl <;> simp [processUnit, hread, he, hh]
  · intro ev er h1 h2 hpt
    refine ⟨Import_valid_fatal attempts ctx p hcl tfstate f ev er h1 h2 hpt, ?_, ?_⟩
    · intro hmem
      have hns := processTypes_no_sync attempts ctx p hcl tfstate f (typeUniverse p f)
      rw [hpt] at hns
      have h3 := hns _ hmem
      simp [Event.isSync] at h3
    · intro hmem
      have hns := processTypes_no_sync attempts ctx p hcl tfstate f (typeUniverse p f)
      rw [hpt] at hns
      have h3 := hns _ hmem
      simp [Event.isSync] at h3

/-- A resource that reads fine but whose configuration serialization
fails. -/
def rW5 : Resource := .mk "r5" none [] (fun _ _ => none) (some (.base "hclboom")) none

/-- C5 witness: the configuration-sink serialization failure surfaces
wrapped with the resource type. -/
theorem claim5_witness :
    RetryDefault 1 (rW5.Read (Filter.mk [] [])) = none ∧
    (processUnit 1 (Filter.mk [] []) (some (Sink.mk none)) none "a" rW5).2 =
      some (.wrap ("error while calculating the Config of resource \"" ++ "a" ++ "\"")
        (.base "hclboom")) :=
  ⟨by decide,
   (claim5_serialization_failure_fatal 1 () pW1 (some (Sink.mk none)) none
     (Filter.mk [] []) "a" rW5 (by decide)).1 (Sink.mk none) (.base "hclboom") rfl rfl⟩

/-- C6: a fetched resource whose ImportState expansion yields the k
additional resources `es` is processed as exactly k+1 units, in the
order: the original resource first, then the expansions in the returned
order (the unit markers of its processing trace are its id followed by
the expansions' ids); and the resource loop contributes exactly those
units' events before continuing with the remaining fetched resources. -/
theorem claim6_expansion_units_in_order (attempts : Nat) (f : Filter)
    (hcl tfstate : Option Sink) (t : String) (re : Resource) (es rest : List Resource)
    (hexp : re.ImportState = .ok es)
    (hok : (processUnits attempts f hcl tfstate t (re :: es)).2 = none) :
    unitMarkers (processUnits attempts f hcl tfstate t (re :: es)).1 =
      re.ID :: es.map Resource.ID ∧
    (unitMarkers (processUnits attempts f hcl tfstate t (re :: es)).1).length =
      es.length + 1 ∧
    processResources attempts f hcl tfstate t (re :: rest) =
      ((processUnits attempts f hcl tfstate t (re :: es)).1 ++
         (processResources attempts f hcl tfstate t rest).1,
       (processResources attempts f hcl tfstate t rest).2) := by
  have h1 := unitMarkers_processUnits attempts f hcl tfstate t (re :: es) hok
  refine ⟨by simpa using h1, by rw [h1]; simp, ?_⟩
  rcases hu : processUnits attempts f hcl tfstate t (re :: es) with ⟨ev, oe⟩
  rw [hu] at hok
  simp only at hok
  subst hok
  rcases hr : processResources attempts f hcl tfstate t rest with ⟨ev2, r2⟩
  simp [processResources, hexp, hu, hr]

/-- An expansion resource. -/
def rExp1 : Resource := .mk "e1" none [] (fun _ _ => none) none none

/-- Another expansion resource. -/
def rExp2 : Resource := .mk "e2" none [] (fun _ _ => none) none none

/-- A resource expanding into two additional resources. -/
def rW6 : Resource := .mk "orig" none [rExp1, rExp2] (fun _ _ => none) none none

/-- C6 witness: a resource with two expansions yields three units, in
order original, first expansion, second expansion. -/
theorem claim6_witness :
    rW6.ImportState = .ok [rExp1, rExp2] ∧
    (processUnits 1 (Filter.mk [] []) none none "a" (rW6 :: [rExp1, rExp2])).2 = none ∧
    (unitMarkers (processUnits 1 (Filter.mk [] []) none none "a"
        (rW6 :: [rExp1, rExp2])).1 = rW6.ID :: [rExp1, rExp2].map Resource.ID ∧
     (unitMarkers (processUnits 1 (Filter.mk [] []) none none "a"
        (rW6 :: [rExp1, rExp2])).1).length = [rExp1, rExp2].length + 1 ∧
     processResources 1 (Filter.mk [] []) none none "a" (rW6 :: []) =
       ((processUnits 1 (Filter.mk [] []) none none "a" (rW6 :: [rExp1, rExp2])).1 ++
          (processResources 1 (Filter.mk [] []) none none "a" []).1,
        (processResources 1 (Filter.mk [] []) none none "a" []).2)) :=
  ⟨rfl, by decide,
   claim6_expansion_units_in_order 1 (Filter.mk [] []) none none "a" rW6 [rExp1, rExp2] []
     rfl (by decide)⟩

/-- C7: when the type loop completes with no fatal error, Import's trace
is the loop trace followed by the finalize trace; no finalize event
occurs during the loop (finalize is strictly after all types); the
finalize trace is exactly one syncHCL event when the configuration sink
is configured, followed by exactly one syncState event when the state
sink is configured and the configuration sync did not fail (a Sync
failure is fatal, so the state sink is not finalized after it); and a
Sync failure becomes the run's result wrapped with which sink failed. -/
theorem claim7_sync_exactly_once_ordered {Ctx : Type} (attempts : Nat) (ctx : Ctx)
    (p : Provider Ctx) (hcl tfstate : Option Sink) (f : Filter) (ev : List Event)
    (h1 : firstUnsupported p.HasResourceType f.Include = none)
    (h2 : firstUnsupported p.HasResourceType f.Exclude = none)
    (hloop : processTypes attempts ctx p hcl tfstate f (typeUniverse p f) = (ev, none)) :
    Import attempts ctx p hcl tfstate f =
      (ev ++ (syncSinks hcl tfstate).1, (syncSinks hcl tfstate).2) ∧
    (∀ e ∈ ev, e.isSync = false) ∧
    (syncSinks hcl tfstate).1 =
      (if hcl.isSome then [Event.syncHCL] else []) ++
        (if tfstate.isSome &&
             (match hcl with | some sk => sk.SyncErr.isNone | none => true)
         then [Event.syncState] else []) ∧
    (∀ sk e, hcl = some sk → sk.SyncErr = some e →
        (Import attempts ctx p hcl tfstate f).2 =
          some (.wrap "error while Sync Config" e)) ∧
    (∀ sk e, tfstate = some sk → sk.SyncErr = some e →
        (match hcl with | some sk2 => sk2.SyncErr = none | none => True) →
        (Import attempts ctx p hcl tfstate f).2 =
          some (.wrap "error while Sync State" e)) := by
  have heq := Import_valid_ok attempts ctx p hcl tfstate f ev h1 h2 hloop
  refine ⟨heq, ?_, ?_, ?_, ?_⟩
  · have hns := processTypes_no_sync attempts ctx p hcl tfstate f (typeUniverse p f)
    rw [hloop] at hns
    exact hns
  · cases hcl with
    | none =>
      cases tfstate with
      | none => rfl
      | some sk2 => cases h3 : sk2.SyncErr <;> simp [syncSinks, syncStep, h3]
    | some sk =>
      cases h3 : sk.SyncErr with
      | some e => simp [syncSinks, syncStep, h3]
      | none =>
        cases tfstate with
        | none => simp [syncSinks, syncStep, h3]
        | some sk2 => cases h4 : sk2.SyncErr <;> simp [syncSinks, syncStep, h3, h4]
  · intro sk e hsk he
    subst hsk
    rw [heq]
    simp [syncSinks, syncStep, he]
  · intro sk e hsk he hok
    subst hsk
    rw [heq]
    cases hcl with
    | none => simp [syncSinks, syncStep, he]
    | some sk2 =>
      simp only at hok
      simp [syncSinks, syncStep, he, hok]

/-- The loop trace of the C7 witness run. -/
def evW7 : List Event :=
  [.fetch "a", .readOK "a" "r2", .serializeHCL "a" "r2", .serializeState "a" "r2",
   .fetch "b", .readOK "b" "r2", .serializeHCL "b" "r2", .serializeState "b" "r2"]

/-- C7 witness: a concrete completed run with both sinks configured
finalizes both, after the loop. -/
theorem claim7_witness :
    (firstUnsupported pW2.HasResourceType (Filter.mk [] []).Include = none ∧
     firstUnsupported pW2.HasResourceType (Filter.mk [] []).Exclude = none ∧
     processTypes 1 () pW2 (some (Sink.mk none)) (some (Sink.mk none)) (Filter.mk [] [])
       (typeUniverse pW2 (Filter.mk [] [])) = (evW7, none)) ∧
    Import 1 () pW2 (some (Sink.mk none)) (some (Sink.mk none)) (Filter.mk [] []) =
      (evW7 ++ (syncSinks (some (Sink.mk none)) (some (Sink.mk none))).1,
       (syncSinks (some (Sink.mk none)) (some (Sink.mk none))).2) :=
  ⟨⟨by decide, by decide, by decide⟩,
   (claim7_sync_exactly_once_ordered 1 () pW2 (some (Sink.mk none)) (some (Sink.mk none))
     (Filter.mk [] []) evW7 (by decide) (by decide) (by decide)).1⟩

theorem processTypes_ctx_irrelevant {Ctx : Type} (attempts : Nat) (p : Provider Ctx)
    (hcl tfstate : Option Sink) (f : Filter) (ctx1 ctx2 : Ctx)
    (h : ∀ t, p.Resources ctx1 t f = p.Resources ctx2 t f) (ts : List String) :
    processTypes attempts ctx1 p hcl tfstate f ts =
      processTypes attempts ctx2 p hcl tfstate f ts := by
  induction ts with
  | nil => rfl
  | cons t ts ih =>
    by_cases hex : f.IsExcluded t
    · simp [processTypes, hex, ih]
    · simp [processTypes, hex, h t, ih]

/-- C8 (amended): Import consults the caller-supplied context only by
handing it to the Provider's fetch: two contexts under which every
fetch returns the same result produce identical runs (same trace and
same result). Cancellation is therefore observable only as a fetch
error reported by the Provider; a cancellation that no fetch reports —
in particular one raised between iterations after the last fetch — does
not stop the loop and does not prevent serialization or sink
finalize. -/
theorem claim8_cancellation_only_via_fetch {Ctx : Type} (attempts : Nat) (p : Provider Ctx)
    (hcl tfstate : Option Sink) (f : Filter) (ctx1 ctx2 : Ctx)
    (h : ∀ t, p.Resources ctx1 t f = p.Resources ctx2 t f) :
    Import attempts ctx1 p hcl tfstate f = Import attempts ctx2 p hcl tfstate f := by
  unfold Import
  rw [processTypes_ctx_irrelevant attempts p hcl tfstate f ctx1 ctx2 h]

/-- A resource reading successfully, for the cancellation
counterexample. -/
def rC8 : Resource := .mk "r1" none [] (fun _ _ => none) none none

/-- A provider that ignores the context it is handed (the interface
leaves reacting to the context entirely to the provider). -/
def pC8 : Provider Bool :=
  { HasResourceType := fun _ => true
  , ResourceTypes := ["a"]
  , Resources := fun _ _ _ => .ok [rC8] }

/-- C8 counterexample: the context is Bool, `true` standing for a
cancellation signal raised for the whole run — hence in particular
pending after the unit was serialized and before finalize. The canceled
run is identical to the uncanceled one: the unit is serialized and both
sink finalizes still happen, so a canceled run persists output, refuting
the claim that cancellation is observable between iterations and that a
canceled run never triggers finalize. -/
theorem claim8_counterexample :
    Import 1 true pC8 (some (Sink.mk none)) (some (Sink.mk none)) (Filter.mk [] []) =
      Import 1 false pC8 (some (Sink.mk none)) (some (Sink.mk none)) (Filter.mk [] []) ∧
    Event.serializeHCL "a" "r1" ∈
      (Import 1 true pC8 (some (Sink.mk none)) (some (Sink.mk none)) (Filter.mk [] [])).1 ∧
    Event.syncHCL ∈
      (Import 1 true pC8 (some (Sink.mk none)) (some (Sink.mk none)) (Filter.mk [] [])).1 ∧
    Event.syncState ∈
      (Import 1 true pC8 (some (Sink.mk none)) (some (Sink.mk none)) (Filter.mk [] [])).1 := by
  decide

/-- C8 witness: the amended theorem applied to the canceled and
uncanceled contexts over the context-blind provider. -/
theorem claim8_witness :
    (∀ t, pC8.Resources true t (Filter.mk [] []) = pC8.Resources false t (Filter.mk [] [])) ∧
    Import 1 true pC8 (some (Sink.mk none)) (some (Sink.mk none)) (Filter.mk [] []) =
      Import 1 false pC8 (some (Sink.mk none)) (some (Sink.mk none)) (Filter.mk [] []) :=
  ⟨fun _ => rfl,
   claim8_cancellation_only_via_fetch 1 pC8 (some (Sink.mk none)) (some (Sink.mk none))
     (Filter.mk [] []) true false (fun _ => rfl)⟩

/-- C9: with both sinks absent and no fatal validation, fetch or
expansion error (with no sinks the loop has no other fatal source, a
read failure being non-fatal), Import returns without error, its trace
contains no serialization and no finalize event, and every non-excluded
type of the resolved universe is fetched. -/
theorem claim9_no_sinks_success {Ctx : Type} (attempts : Nat) (ctx : Ctx) (p : Provider Ctx)
    (f : Filter)
    (h1 : firstUnsupported p.HasResourceType f.Include = none)
    (h2 : firstUnsupported p.HasResourceType f.Exclude = none)
    (hloop : (processTypes attempts ctx p none none f (typeUniverse p f)).2 = none) :
    (Import attempts ctx p none none f).2 = none ∧
    (∀ ev ∈ (Import attempts ctx p none none f).1,
        ev.isSerialize = false ∧ ev.isSync = false) ∧
    (∀ t ∈ (if f.Include.isEmpty then p.ResourceTypes else f.Include),
        f.IsExcluded t = false → Event.fetch t ∈ (Import attempts ctx p none none f).1) := by
  rcases hpt : processTypes attempts ctx p none none f (typeUniverse p f) with ⟨ev, oe⟩
  rw [hpt] at hloop
  simp only at hloop
  subst hloop
  have heq := Import_valid_ok attempts ctx p none none f ev h1 h2 hpt
  have hsync : syncSinks none none = ([], none) := rfl
  rw [hsync] at heq
  simp only [List.append_nil] at heq
  refine ⟨by rw [heq], ?_, ?_⟩
  · intro e2 he2
    rw [heq] at he2
    simp only at he2
    constructor
    · have h3 := processTypes_no_sinks_serialize attempts ctx p f (typeUniverse p f)
      rw [hpt] at h3
      exact h3 e2 he2
    · have h3 := processTypes_no_sync attempts ctx p none none f (typeUniverse p f)
      rw [hpt] at h3
      exact h3 e2 he2
  · intro t hmem hex
    rw [heq]
    have h3 := fetch_mem_processTypes attempts ctx p none none f (typeUniverse p f) t
      (by rw [hpt]) (by simpa [typeUniverse] using hmem) hex
    rw [hpt] at h3
    exact h3

/-- C9 witness: a concrete run over two types with both sinks absent
completes with a nil error. -/
theorem claim9_witness :
    (firstUnsupported pW2.HasResourceType (Filter.mk [] []).Include = none ∧
     firstUnsupported pW2.HasResourceType (Filter.mk [] []).Exclude = none ∧
     (processTypes 1 () pW2 none none (Filter.mk [] [])
        (typeUniverse pW2 (Filter.mk [] []))).2 = none) ∧
    (Import 1 () pW2 none none (Filter.mk [] [])).2 = none :=
  ⟨⟨by decide, by decide, by decide⟩,
   (claim9_no_sinks_success 1 () pW2 (Filter.mk [] []) (by decide) (by decide) (by decide)).1⟩

/-- C10: a fetched resource whose ImportState call returns an error
makes the resource loop return exactly that error — unwrapped and with
no added context, no retry, no skip-with-log event — with no events for
this resource and no further resources processed; and a fatal loop
error becomes Import's result unchanged, with no sink finalize event
anywhere in the run. -/
theorem claim10_expansion_error_fatal {Ctx : Type} (attempts : Nat) (ctx : Ctx)
    (p : Provider Ctx) (hcl tfstate : Option Sink) (f : Filter) (t : String)
    (re : Resource) (rest : List Resource) (e : GoErr)
    (hexp : re.ImportState = .error e) :
    processResources attempts f hcl tfstate t (re :: rest) = ([], some e) ∧
    (∀ ev er, firstUnsupported p.HasResourceType f.Include = none →
        firstUnsupported p.HasResourceType f.Exclude = none →
        processTypes attempts ctx p hcl tfstate f (typeUniverse p f) = (ev, some er) →
        (Import attempts ctx p hcl tfstate f).2 = some er ∧
          Event.syncHCL ∉ (Import attempts ctx p hcl tfstate f).1 ∧
          Event.syncState ∉ (Import attempts ctx p hcl tfstate f).1) := by
  constructor
  · simp [processResources, hexp]
  · intro ev er h1 h2 hpt
    have heq := Import_valid_fatal attempts ctx p hcl tfstate f ev er h1 h2 hpt
    rw [heq]
    refine ⟨rfl, ?_, ?_⟩
    · intro hmem
      have hns := processTypes_no_sync attempts ctx p hcl tfstate f (typeUniverse p f)
      rw [hpt] at hns
      have h3 := hns _ hmem
      simp [Event.isSync] at h3
    · intro hmem
      have hns := processTypes_no_sync attempts ctx p hcl tfstate f (typeUniverse p f)
      rw [hpt] at hns
      have h3 := hns _ hmem
      simp [Event.isSync] at h3

/-- A resource whose ImportState call fails. -/
def rW10 : Resource := .mk "rb" (some (.base "expboom")) [] (fun _ _ => none) none none

/-- C10 witness: the expansion error surfaces as the loop's result
unchanged. -/
theorem claim10_witness :
    rW10.ImportState = .error (.base "expboom") ∧
    processResources 1 (Filter.mk [] []) none none "a" (rW10 :: []) =
      ([], some (.base "expboom")) :=
  ⟨rfl,
   (claim10_expansion_error_fatal 1 () pW1 none none (Filter.mk [] []) "a" rW10 []
     (.base "expboom") rfl).1⟩

end Terracognita
